import Mathlib

/-!
NutriChef Box — verification of the shopping-list and nutrition core.

Shallow embedding of the two derivation routines of app.js:

* the shopping-needs derivation inside displayShoppingList
  (lines 454–464): build a case-folded inventory lookup, then count,
  per ingredient occurrence, the ingredients whose stock is zero;
* the nutrition aggregation inside updateNutritionGraph
  (lines 503–514): sum the carbs/protein/fat of every ingredient
  occurrence found in the nutrient table under its case-folded name.

JavaScript numbers are embedded as rationals (the data model of the
specification declares nutrient quantities as non-negative reals);
inventory quantities are natural numbers (non-negative integers in the
data model).  A recipe whose ingredients field is missing is embedded
with ingredients = none; the code path that would throw a TypeError on
such a recipe is embedded in Option.
-/

/-- A recipe snapshot: the store-assigned id is opaque and irrelevant to
the core, so only title, content and the (possibly missing) ingredients
array are kept. -/
structure Recipe where
  title : String
  content : String
  ingredients : Option (List String)
deriving DecidableEq, Repr

/-- An inventory item snapshot, a name paired with a quantity. -/
structure InventoryItem where
  name : String
  quantity : Nat
deriving DecidableEq, Repr

/-- A carbs/protein/fat record of the nutrient table. -/
structure NutrientFact where
  carbs : ℚ
  protein : ℚ
  fat : ℚ
deriving DecidableEq, Repr

/-- The derived macro totals: totalCarbs, totalProtein, totalFat. -/
structure NutritionTotals where
  carbs : ℚ
  protein : ℚ
  fat : ℚ
deriving DecidableEq, Repr

/-- Embedding of the JavaScript toLowerCase call (restricted to the
basic-latin folding that Char.toLower performs), applied character-wise
as toLowerCase is. -/
def lowerCase (s : String) : String :=
  ⟨s.data.map Char.toLower⟩

/-- Embedding of building
new Map(inventory.map(item => [item.name.toLowerCase(), item.quantity]))
and then reading it with get k: the Map constructor lets a later pair
overwrite an earlier one with the same key, so the lookup scans the pair
list from the back. -/
def inventoryLookup (inventory : List InventoryItem) (k : String) : Option Nat :=
  (((inventory.map fun item => (lowerCase item.name, item.quantity)).reverse.find?
      fun p => p.1 == k).map Prod.snd)

/-- Embedding of inventoryMap.get(ingredient.toLowerCase()) || 0 — a
missing entry (undefined) coerces to 0; a stored 0 stays 0. -/
def stockOf (inventory : List InventoryItem) (ingredient : String) : Nat :=
  (inventoryLookup inventory (lowerCase ingredient)).getD 0

/-- The neededItems accumulator: a JavaScript plain object used as a
string-keyed counter, embedded as an insertion-ordered association list. -/
abbrev Needs := List (String × Nat)

/-- Property read neededItems[k]: the first — and, keys being unique, the
only — binding; undefined, i.e. no binding, reads as 0 through || 0. -/
def needGet (m : Needs) (k : String) : Nat :=
  match m with
  | [] => 0
  | p :: t => if p.1 = k then p.2 else needGet t k

/-- Embedding of Object.keys(neededItems), the key set of the
accumulator. -/
def needKeys (m : Needs) : List String :=
  m.map Prod.fst

/-- Embedding of neededItems[k] = (neededItems[k] || 0) + 1: update the
existing binding in place, or append a fresh binding of k to 1. -/
def bump (m : Needs) (k : String) : Needs :=
  if m.any fun p => p.1 == k then
    m.map fun p => if p.1 == k then (p.1, p.2 + 1) else p
  else m ++ [(k, 1)]

/-- The inner recipe.ingredients.forEach loop of displayShoppingList:
bump each ingredient whose stock is 0. -/
def addRecipeNeeds (inventory : List InventoryItem) (m : Needs)
    (ingredients : List String) : Needs :=
  ingredients.foldl
    (fun acc ingredient =>
      if stockOf inventory ingredient = 0 then bump acc ingredient else acc) m

/-- The outer recipes.forEach loop: a recipe whose ingredients field is
missing makes the member access throw a TypeError, embedded as none. -/
def shoppingNeedsLoop (inventory : List InventoryItem) :
    List Recipe → Needs → Option Needs
  | [], m => some m
  | r :: rs, m =>
    match r.ingredients with
    | some ings => shoppingNeedsLoop inventory rs (addRecipeNeeds inventory m ings)
    | none => none

/-- The shopping-needs derivation of displayShoppingList (app.js 454–464):
fold the recipes over the needs accumulator, starting from the empty
object. -/
def computeShoppingNeeds (recipes : List Recipe) (inventory : List InventoryItem) :
    Option Needs :=
  shoppingNeedsLoop inventory recipes []

/-- Nutrient-table lookup table[key]: a JavaScript object read, embedded
as a partial function. -/
abbrev NutrientTable := String → Option NutrientFact

/-- The nutrition aggregation of updateNutritionGraph (app.js 503–514):
(recipe.ingredients || []).forEach, look the folded ingredient up in the
table, and accumulate the three totals when found. -/
def computeTotals (recipes : List Recipe) (table : NutrientTable) :
    NutritionTotals :=
  recipes.foldl
    (fun tot r =>
      (r.ingredients.getD []).foldl
        (fun tot ingredient =>
          match table (lowerCase ingredient) with
          | some n => ⟨tot.carbs + n.carbs, tot.protein + n.protein, tot.fat + n.fat⟩
          | none => tot) tot)
    ⟨0, 0, 0⟩

/-- The static NUTRIENT_DATA table of app.js (lines 485–494). -/
def NUTRIENT_DATA : NutrientTable := fun k =>
  if k = "卵" then some ⟨0.6, 12.6, 10.6⟩
  else if k = "egg" then some ⟨0.6, 12.6, 10.6⟩
  else if k = "牛乳" then some ⟨4.8, 3.3, 3.8⟩
  else if k = "milk" then some ⟨4.8, 3.3, 3.8⟩
  else if k = "砂糖" then some ⟨100, 0, 0⟩
  else if k = "sugar" then some ⟨100, 0, 0⟩
  else if k = "じゃがいも" then some ⟨17.5, 2.0, 0.1⟩
  else if k = "potato" then some ⟨17.5, 2.0, 0.1⟩
  else if k = "玉ねぎ" then some ⟨7.6, 1.1, 0.1⟩
  else if k = "onion" then some ⟨7.6, 1.1, 0.1⟩
  else if k = "豚肉" then some ⟨0, 22.0, 15.0⟩
  else if k = "pork" then some ⟨0, 22.0, 15.0⟩
  else if k = "人参" then some ⟨8.2, 0.9, 0.2⟩
  else if k = "carrot" then some ⟨8.2, 0.9, 0.2⟩
  else none

/-- All ingredient occurrences across a recipe sequence, in order (a
missing ingredients field reads as the empty sequence). -/
def allIngredients (recipes : List Recipe) : List String :=
  (recipes.map fun r => r.ingredients.getD []).flatten

/-- Number of occurrences of the exact spelling k across all recipes. -/
def occCount (recipes : List Recipe) (k : String) : Nat :=
  (allIngredients recipes).count k

/-- Component-wise addition of macro totals. -/
def totAdd (a b : NutritionTotals) : NutritionTotals :=
  ⟨a.carbs + b.carbs, a.protein + b.protein, a.fat + b.fat⟩

/-- The macro contribution of one ingredient occurrence: the table entry
under the case-folded name, or zero when absent. -/
def factOf (table : NutrientTable) (i : String) : NutritionTotals :=
  match table (lowerCase i) with
  | some n => ⟨n.carbs, n.protein, n.fat⟩
  | none => ⟨0, 0, 0⟩

/-- Component-wise sum of a list of macro totals. -/
def sumTotals (l : List NutritionTotals) : NutritionTotals :=
  l.foldr totAdd ⟨0, 0, 0⟩

/-- Specification-side description of the aggregation, stated from the
words of the specification (sections 4.2 and 8): a straight sum, over
every ingredient occurrence of every recipe, of the table entry found
under the case-folded name, an absent entry contributing nothing.  Kept
separate from computeTotals so the two can be compared. -/
def specTotals (recipes : List Recipe) (table : NutrientTable) : NutritionTotals :=
  sumTotals ((allIngredients recipes).map (factOf table))

/-- Does the string contain a basic-latin upper-case letter? -/
def containsUpper (s : String) : Bool :=
  s.data.any Char.isUpper

/-- Claim C1 as stated: every key of the result occurs in some recipe,
and its value is the number of RECIPES containing that exact spelling,
restricted to those with zero case-folded stock. -/
def claimC1 : Prop :=
  ∀ (recipes : List Recipe) (inv : List InventoryItem) (m : Needs),
    computeShoppingNeeds recipes inv = some m →
    ∀ k ∈ needKeys m,
      (∃ r ∈ recipes, k ∈ r.ingredients.getD []) ∧
      needGet m k =
        (recipes.filter fun r =>
          decide (k ∈ r.ingredients.getD []) && decide (stockOf inv k = 0)).length

/-- Claim C4 as stated: both derivations are total, a recipe with a
missing ingredients field being read as having an empty ingredient
sequence by both. -/
def claimC4 : Prop :=
  ∀ (recipes : List Recipe) (inv : List InventoryItem) (table : NutrientTable),
    (computeShoppingNeeds recipes inv).isSome = true ∧
    computeTotals recipes table
      = computeTotals
          (recipes.map fun r => ⟨r.title, r.content, some (r.ingredients.getD [])⟩)
          table

lemma needGet_map_ne (m : Needs) (k k' : String) (h : k' ≠ k) :
    needGet (m.map fun p => if p.1 == k then (p.1, p.2 + 1) else p) k' = needGet m k' := by
  induction m with
  | nil => rfl
  | cons p t ih =>
    simp only [beq_iff_eq] at ih
    by_cases hp : p.1 = k
    · simp [needGet, hp, Ne.symm h, ih]
    · by_cases hk' : p.1 = k'
      · simp [needGet, hp, hk', h, Ne.symm h]
      · simp [needGet, hp, hk', ih]

lemma needGet_map_self (m : Needs) (k : String)
    (h : m.any (fun p => p.1 == k) = true) :
    needGet (m.map fun p => if p.1 == k then (p.1, p.2 + 1) else p) k
      = needGet m k + 1 := by
  induction m with
  | nil => simp at h
  | cons p t ih =>
    simp only [beq_iff_eq] at ih
    by_cases hp : p.1 = k
    · simp [needGet, hp]
    · have ht : t.any (fun p => p.1 == k) = true := by
        simp only [List.any_cons, Bool.or_eq_true] at h
        rcases h with h1 | h1
        · exact absurd (by simpa using h1) hp
        · exact h1
      simp [needGet, hp, ih ht]

lemma needGet_append_ne (m : Needs) (k k' : String) (h : k' ≠ k) :
    needGet (m ++ [(k, 1)]) k' = needGet m k' := by
  induction m with
  | nil =>
    simp only [List.nil_append, needGet]
    rw [if_neg fun e => h e.symm]
  | cons p t ih =>
    simp only [List.cons_append, needGet]
    by_cases hk' : p.1 = k'
    · rw [if_pos hk', if_pos hk']
    · rw [if_neg hk', if_neg hk']
      exact ih

lemma needGet_append_self (m : Needs) (k : String)
    (h : m.any (fun p => p.1 == k) = false) :
    needGet (m ++ [(k, 1)]) k = needGet m k + 1 := by
  induction m with
  | nil => simp [needGet]
  | cons p t ih =>
    simp only [List.any_cons, Bool.or_eq_false_iff] at h
    obtain ⟨hp, ht⟩ := h
    have hpk : ¬ p.1 = k := by simpa using hp
    simp only [List.cons_append, needGet]
    rw [if_neg hpk, if_neg hpk]
    exact ih ht

lemma needGet_bump (m : Needs) (k k' : String) :
    needGet (bump m k) k' = if k' = k then needGet m k' + 1 else needGet m k' := by
  unfold bump
  by_cases h : m.any (fun p => p.1 == k) = true
  · rw [if_pos h]
    by_cases hk : k' = k
    · subst hk
      rw [if_pos rfl]
      exact needGet_map_self m k' h
    · rw [if_neg hk]
      exact needGet_map_ne m k k' hk
  · have h' : m.any (fun p => p.1 == k) = false := by
      cases hb : m.any (fun p => p.1 == k)
      · rfl
      · exact absurd hb h
    rw [if_neg h]
    by_cases hk : k' = k
    · subst hk
      rw [if_pos rfl]
      exact needGet_append_self m k' h'
    · rw [if_neg hk]
      exact needGet_append_ne m k k' hk

lemma needKeys_map_bump (m : Needs) (k : String) :
    needKeys (m.map fun p => if p.1 == k then (p.1, p.2 + 1) else p) = needKeys m := by
  induction m with
  | nil => rfl
  | cons p t ih =>
    simp only [beq_iff_eq] at ih
    by_cases hp : p.1 = k
    · simp [needKeys, hp] at ih ⊢
      simpa [needKeys] using ih
    · simp [needKeys, hp] at ih ⊢
      simpa [needKeys] using ih

lemma mem_needKeys_bump (m : Needs) (k k' : String) :
    k' ∈ needKeys (bump m k) ↔ k' ∈ needKeys m ∨ k' = k := by
  unfold bump
  by_cases h : m.any (fun p => p.1 == k) = true
  · rw [if_pos h, needKeys_map_bump]
    constructor
    · exact Or.inl
    · rintro (h' | rfl)
      · exact h'
      · rcases List.any_eq_true.mp h with ⟨p, hp, he⟩
        have hpk : p.1 = k' := by simpa using he
        exact hpk ▸ List.mem_map_of_mem Prod.fst hp
  · rw [if_neg h]
    simp [needKeys]

lemma addRecipeNeeds_nil (inv : List InventoryItem) (m : Needs) :
    addRecipeNeeds inv m [] = m := rfl

lemma addRecipeNeeds_cons (inv : List InventoryItem) (m : Needs) (i : String)
    (t : List String) :
    addRecipeNeeds inv m (i :: t)
      = addRecipeNeeds inv (if stockOf inv i = 0 then bump m i else m) t := rfl

lemma addRecipeNeeds_needGet (inv : List InventoryItem) (l : List String) :
    ∀ (m : Needs) (k : String),
      needGet (addRecipeNeeds inv m l) k
        = needGet m k + (if stockOf inv k = 0 then l.count k else 0) := by
  induction l with
  | nil =>
    intro m k
    simp [addRecipeNeeds_nil]
  | cons i t ih =>
    intro m k
    rw [addRecipeNeeds_cons]
    by_cases hs : stockOf inv i = 0
    · rw [if_pos hs, ih (bump m i) k, needGet_bump]
      by_cases hk : k = i
      · subst hk
        simp only [if_pos rfl, if_pos hs, List.count_cons]
        simp
        omega
      · simp [hk, List.count_cons, Ne.symm hk]
    · rw [if_neg hs, ih m k]
      by_cases hk : k = i
      · subst hk
        simp [hs]
      · simp [hk, List.count_cons, Ne.symm hk]

lemma mem_needKeys_addRecipeNeeds (inv : List InventoryItem) (l : List String) :
    ∀ (m : Needs) (k : String),
      k ∈ needKeys (addRecipeNeeds inv m l)
        ↔ k ∈ needKeys m ∨ (stockOf inv k = 0 ∧ k ∈ l) := by
  induction l with
  | nil =>
    intro m k
    simp [addRecipeNeeds_nil]
  | cons i t ih =>
    intro m k
    rw [addRecipeNeeds_cons]
    by_cases hs : stockOf inv i = 0
    · rw [if_pos hs, ih (bump m i) k, mem_needKeys_bump]
      by_cases hk : k = i
      · subst hk
        simp [hs]
      · simp [hk]
    · rw [if_neg hs, ih m k]
      by_cases hk : k = i
      · subst hk
        simp [hs]
      · simp [hk]

lemma shoppingNeedsLoop_nil (inv : List InventoryItem) (m : Needs) :
    shoppingNeedsLoop inv [] m = some m := rfl

lemma occCount_nil (k : String) : occCount [] k = 0 := rfl

lemma occCount_cons (r : Recipe) (rs : List Recipe) (k : String) :
    occCount (r :: rs) k = (r.ingredients.getD []).count k + occCount rs k := by
  simp [occCount, allIngredients]

lemma allIngredients_cons (r : Recipe) (rs : List Recipe) :
    allIngredients (r :: rs) = r.ingredients.getD [] ++ allIngredients rs := by
  simp [allIngredients]

lemma shoppingNeedsLoop_needGet (inv : List InventoryItem) :
    ∀ (rs : List Recipe) (m₀ m : Needs),
      shoppingNeedsLoop inv rs m₀ = some m →
      ∀ k, needGet m k
        = needGet m₀ k + (if stockOf inv k = 0 then occCount rs k else 0) := by
  intro rs
  induction rs with
  | nil =>
    intro m₀ m h k
    rw [shoppingNeedsLoop_nil] at h
    cases h
    simp [occCount_nil]
  | cons r rs ih =>
    intro m₀ m h k
    cases hr : r.ingredients with
    | none => simp [shoppingNeedsLoop, hr] at h
    | some ings =>
      simp only [shoppingNeedsLoop, hr] at h
      rw [ih _ m h k, addRecipeNeeds_needGet, occCount_cons, hr]
      by_cases hs : stockOf inv k = 0
      · simp [hs]
        omega
      · simp [hs]

lemma shoppingNeedsLoop_keys (inv : List InventoryItem) :
    ∀ (rs : List Recipe) (m₀ m : Needs),
      shoppingNeedsLoop inv rs m₀ = some m →
      ∀ k, (k ∈ needKeys m
        ↔ k ∈ needKeys m₀ ∨ (stockOf inv k = 0 ∧ k ∈ allIngredients rs)) := by
  intro rs
  induction rs with
  | nil =>
    intro m₀ m h k
    rw [shoppingNeedsLoop_nil] at h
    cases h
    simp [allIngredients]
  | cons r rs ih =>
    intro m₀ m h k
    cases hr : r.ingredients with
    | none => simp [shoppingNeedsLoop, hr] at h
    | some ings =>
      simp only [shoppingNeedsLoop, hr] at h
      rw [ih _ m h k, mem_needKeys_addRecipeNeeds, allIngredients_cons, hr]
      simp only [List.mem_append]
      tauto

lemma shoppingNeedsLoop_isSome (inv : List InventoryItem) :
    ∀ (rs : List Recipe) (m₀ : Needs),
      (∀ r ∈ rs, r.ingredients.isSome) → (shoppingNeedsLoop inv rs m₀).isSome := by
  intro rs
  induction rs with
  | nil =>
    intro m₀ _
    simp [shoppingNeedsLoop_nil]
  | cons r rs ih =>
    intro m₀ h
    cases hr : r.ingredients with
    | none =>
      have := h r (List.mem_cons_self r rs)
      simp [hr] at this
    | some ings =>
      simp only [shoppingNeedsLoop, hr]
      exact ih _ fun r' hr' => h r' (List.mem_cons_of_mem r hr')

lemma computeShoppingNeeds_needGet {recipes : List Recipe}
    {inv : List InventoryItem} {m : Needs}
    (h : computeShoppingNeeds recipes inv = some m) (k : String) :
    needGet m k = if stockOf inv k = 0 then occCount recipes k else 0 := by
  have := shoppingNeedsLoop_needGet inv recipes [] m h k
  simpa [needGet] using this

lemma computeShoppingNeeds_keys {recipes : List Recipe}
    {inv : List InventoryItem} {m : Needs}
    (h : computeShoppingNeeds recipes inv = some m) (k : String) :
    k ∈ needKeys m ↔ stockOf inv k = 0 ∧ k ∈ allIngredients recipes := by
  have := shoppingNeedsLoop_keys inv recipes [] m h k
  simpa [needKeys] using this

lemma totAdd_zero_right (a : NutritionTotals) : totAdd a ⟨0, 0, 0⟩ = a := by
  cases a
  simp [totAdd]

lemma totAdd_zero_left (a : NutritionTotals) : totAdd ⟨0, 0, 0⟩ a = a := by
  cases a
  simp [totAdd]

lemma totAdd_assoc (a b c : NutritionTotals) :
    totAdd (totAdd a b) c = totAdd a (totAdd b c) := by
  cases a
  cases b
  cases c
  simp [totAdd, add_assoc]

lemma sumTotals_cons (a : NutritionTotals) (l : List NutritionTotals) :
    sumTotals (a :: l) = totAdd a (sumTotals l) := rfl

lemma sumTotals_append (l1 l2 : List NutritionTotals) :
    sumTotals (l1 ++ l2) = totAdd (sumTotals l1) (sumTotals l2) := by
  induction l1 with
  | nil =>
    rw [List.nil_append]
    exact (totAdd_zero_left _).symm
  | cons a t ih =>
    rw [List.cons_append, sumTotals_cons, ih, sumTotals_cons, totAdd_assoc]

lemma totalsStep_eq (table : NutrientTable) (tot : NutritionTotals) (i : String) :
    (match table (lowerCase i) with
      | some n =>
        (⟨tot.carbs + n.carbs, tot.protein + n.protein, tot.fat + n.fat⟩ :
          NutritionTotals)
      | none => tot) = totAdd tot (factOf table i) := by
  unfold factOf
  cases htab : table (lowerCase i)
  · simp [htab, totAdd_zero_right]
  · simp [htab, totAdd]

lemma totalsFoldl_inner (table : NutrientTable) (l : List String) :
    ∀ tot : NutritionTotals,
      l.foldl
        (fun tot ingredient =>
          match table (lowerCase ingredient) with
          | some n => ⟨tot.carbs + n.carbs, tot.protein + n.protein, tot.fat + n.fat⟩
          | none => tot) tot
        = totAdd tot (sumTotals (l.map (factOf table))) := by
  induction l with
  | nil =>
    intro tot
    simp [sumTotals, totAdd_zero_right]
  | cons i t ih =>
    intro tot
    rw [List.foldl_cons, ih, totalsStep_eq, List.map_cons, sumTotals_cons,
      totAdd_assoc]

lemma computeTotals_outer (table : NutrientTable) :
    ∀ (rs : List Recipe) (tot : NutritionTotals),
      rs.foldl
        (fun tot r =>
          (r.ingredients.getD []).foldl
            (fun tot ingredient =>
              match table (lowerCase ingredient) with
              | some n =>
                ⟨tot.carbs + n.carbs, tot.protein + n.protein, tot.fat + n.fat⟩
              | none => tot) tot) tot
        = totAdd tot (sumTotals ((allIngredients rs).map (factOf table))) := by
  intro rs
  induction rs with
  | nil =>
    intro tot
    simp [allIngredients, sumTotals, totAdd_zero_right]
  | cons r t ih =>
    intro tot
    rw [List.foldl_cons, ih, totalsFoldl_inner, allIngredients_cons,
      List.map_append, sumTotals_append, totAdd_assoc]

lemma computeTotals_eq_specTotals (recipes : List Recipe) (table : NutrientTable) :
    computeTotals recipes table = specTotals recipes table := by
  unfold computeTotals specTotals
  rw [computeTotals_outer, totAdd_zero_left]

lemma isUpper_toLower (c : Char) : (Char.toLower c).isUpper = false := by
  unfold Char.toLower
  by_cases h : 65 ≤ c.toNat ∧ c.toNat ≤ 90
  · rw [if_pos h]
    obtain ⟨h1, h2⟩ := h
    generalize c.toNat = n at h1 h2 ⊢
    interval_cases n <;> decide
  · rw [if_neg h]
    unfold Char.isUpper
    by_contra hb
    simp only [Bool.not_eq_false, Bool.and_eq_true, decide_eq_true_eq] at hb
    exact h ⟨hb.1, hb.2⟩

lemma lowerCase_data (s : String) : (lowerCase s).data = s.data.map Char.toLower := rfl

lemma lowerCase_no_upper (s : String) :
    ∀ c ∈ (lowerCase s).data, c.isUpper = false := by
  intro c hc
  rw [lowerCase_data] at hc
  rcases List.mem_map.mp hc with ⟨a, _, rfl⟩
  exact isUpper_toLower a

lemma lowerCase_ne_of_containsUpper (k s : String) (h : containsUpper k = true) :
    lowerCase s ≠ k := by
  intro e
  rcases List.any_eq_true.mp h with ⟨c, hc, hu⟩
  rw [← e] at hc
  rw [lowerCase_no_upper s c hc] at hu
  cases hu

lemma mem_allIngredients {k : String} {recipes : List Recipe} :
    k ∈ allIngredients recipes ↔ ∃ r ∈ recipes, k ∈ r.ingredients.getD [] := by
  unfold allIngredients
  simp

lemma allIngredients_normalize (recipes : List Recipe) :
    allIngredients
      (recipes.map fun r => ⟨r.title, r.content, some (r.ingredients.getD [])⟩)
      = allIngredients recipes := by
  unfold allIngredients
  rw [List.map_map]
  rfl

lemma allIngredients_append (A B : List Recipe) :
    allIngredients (A ++ B) = allIngredients A ++ allIngredients B := by
  unfold allIngredients
  rw [List.map_append, List.flatten_append]

/-- C1 fails as stated: with one recipe listing "Egg" twice and an empty
inventory, the derivation reports a need of 2 for "Egg", while only 1
recipe contains that spelling. -/
theorem claimC1_counterexample : ¬ claimC1 := by
  intro h
  have h2 :=
    (h [⟨"Omelette", "", some ["Egg", "Egg"]⟩] [] [("Egg", 2)] (by decide)
      "Egg" (by decide)).2
  exact absurd h2 (by decide)

/-- C1 (amended): every key of the shopping-needs result occurs in some
recipe, its case-folded stock is zero, and its value is the number of
OCCURRENCES of that exact spelling across all recipes (a spelling listed
twice in one recipe counts twice). -/
theorem claimC1_amended :
    ∀ (recipes : List Recipe) (inv : List InventoryItem) (m : Needs),
      computeShoppingNeeds recipes inv = some m →
      ∀ k ∈ needKeys m,
        k ∈ allIngredients recipes ∧
        stockOf inv k = 0 ∧
        needGet m k = occCount recipes k := by
  intro recipes inv m h k hk
  have hkeys := (computeShoppingNeeds_keys h k).mp hk
  refine ⟨hkeys.2, hkeys.1, ?_⟩
  rw [computeShoppingNeeds_needGet h k, if_pos hkeys.1]

theorem claimC1_amended_witness :
    computeShoppingNeeds [⟨"Omelette", "", some ["Egg", "Egg"]⟩] []
        = some [("Egg", 2)] ∧
    "Egg" ∈ needKeys [("Egg", 2)] ∧
    ("Egg" ∈ allIngredients [⟨"Omelette", "", some ["Egg", "Egg"]⟩] ∧
      stockOf [] "Egg" = 0 ∧
      needGet [("Egg", 2)] "Egg"
        = occCount [⟨"Omelette", "", some ["Egg", "Egg"]⟩] "Egg") :=
  ⟨by decide, by decide,
    claimC1_amended [⟨"Omelette", "", some ["Egg", "Egg"]⟩] [] [("Egg", 2)]
      (by decide) "Egg" (by decide)⟩

/-- C2: stock is looked up by case-folded name with a missing inventory
entry read as zero; a need keyed by the original spelling counts one per
occurrence while stock is exactly zero; positive stock yields no need at
all. -/
theorem claimC2 :
    ∀ (recipes : List Recipe) (inv : List InventoryItem) (m : Needs),
      computeShoppingNeeds recipes inv = some m →
      (∀ s, inventoryLookup inv (lowerCase s) = none → stockOf inv s = 0) ∧
      (∀ k, stockOf inv k = 0 → needGet m k = occCount recipes k) ∧
      (∀ k, stockOf inv k ≠ 0 → needGet m k = 0 ∧ k ∉ needKeys m) := by
  intro recipes inv m h
  refine ⟨fun s hs => ?_, fun k hk => ?_, fun k hk => ⟨?_, ?_⟩⟩
  · unfold stockOf
    rw [hs]
    rfl
  · rw [computeShoppingNeeds_needGet h k, if_pos hk]
  · rw [computeShoppingNeeds_needGet h k, if_neg hk]
  · intro hmem
    exact hk ((computeShoppingNeeds_keys h k).mp hmem).1

theorem claimC2_witness :
    computeShoppingNeeds [⟨"Cake", "", some ["Egg", "Milk", "Sugar"]⟩]
        [⟨"egg", 0⟩, ⟨"sugar", 2⟩]
      = some [("Egg", 1), ("Milk", 1)] ∧
    inventoryLookup [⟨"egg", 0⟩, ⟨"sugar", 2⟩] (lowerCase "Milk") = none ∧
    stockOf [⟨"egg", 0⟩, ⟨"sugar", 2⟩] "Milk" = 0 ∧
    needGet [("Egg", 1), ("Milk", 1)] "Egg"
      = occCount [⟨"Cake", "", some ["Egg", "Milk", "Sugar"]⟩] "Egg" ∧
    (needGet [("Egg", 1), ("Milk", 1)] "Sugar" = 0 ∧
      "Sugar" ∉ needKeys [("Egg", 1), ("Milk", 1)]) :=
  ⟨by decide, by decide,
    (claimC2 [⟨"Cake", "", some ["Egg", "Milk", "Sugar"]⟩]
      [⟨"egg", 0⟩, ⟨"sugar", 2⟩] [("Egg", 1), ("Milk", 1)] (by decide)).1
      "Milk" (by decide),
    (claimC2 [⟨"Cake", "", some ["Egg", "Milk", "Sugar"]⟩]
      [⟨"egg", 0⟩, ⟨"sugar", 2⟩] [("Egg", 1), ("Milk", 1)] (by decide)).2.1
      "Egg" (by decide),
    (claimC2 [⟨"Cake", "", some ["Egg", "Milk", "Sugar"]⟩]
      [⟨"egg", 0⟩, ⟨"sugar", 2⟩] [("Egg", 1), ("Milk", 1)] (by decide)).2.2
      "Sugar" (by decide)⟩

/-- C3: the totals equal the sum, over every ingredient occurrence in
every recipe, of the table entry under the case-folded name of the
occurrence, absent entries contributing nothing and no deduplication or
inventory weighting taking place. -/
theorem claimC3 :
    ∀ (recipes : List Recipe) (table : NutrientTable),
      computeTotals recipes table = specTotals recipes table := by
  intro recipes table
  exact computeTotals_eq_specTotals recipes table

/-- C4 fails as stated: the shopping-needs derivation dereferences the
ingredients field without a defensive default, so a recipe with the field
missing makes it throw instead of returning a result. -/
theorem claimC4_counterexample : ¬ claimC4 := by
  intro h
  have h1 := (h [⟨"Soup", "", none⟩] [] NUTRIENT_DATA).1
  exact absurd h1 (by decide)

/-- C4 (amended): the nutrition aggregation treats a missing ingredient
list as empty and is total, but the shopping-needs derivation is only
defined when every recipe carries an ingredient list. -/
theorem claimC4_amended :
    (∀ (recipes : List Recipe) (table : NutrientTable),
      computeTotals recipes table
        = computeTotals
            (recipes.map fun r => ⟨r.title, r.content, some (r.ingredients.getD [])⟩)
            table) ∧
    (∀ (recipes : List Recipe) (inv : List InventoryItem),
      (∀ r ∈ recipes, r.ingredients.isSome = true) →
      (computeShoppingNeeds recipes inv).isSome = true) := by
  constructor
  · intro recipes table
    rw [computeTotals_eq_specTotals, computeTotals_eq_specTotals]
    unfold specTotals
    rw [allIngredients_normalize]
  · intro recipes inv h
    exact shoppingNeedsLoop_isSome inv recipes [] h

theorem claimC4_amended_witness :
    (computeShoppingNeeds [⟨"Cake", "", some ["Egg"]⟩] []).isSome = true ∧
    computeTotals [⟨"Soup", "", none⟩] NUTRIENT_DATA
      = computeTotals
          (([⟨"Soup", "", none⟩] : List Recipe).map fun r =>
            (⟨r.title, r.content, some (r.ingredients.getD [])⟩ : Recipe))
          NUTRIENT_DATA :=
  ⟨claimC4_amended.2 [⟨"Cake", "", some ["Egg"]⟩] [] (by decide),
    claimC4_amended.1 [⟨"Soup", "", none⟩] NUTRIENT_DATA⟩

/-- C5: inventory matching is case-insensitive while result keys keep the
authored spelling — two spellings folding alike are distinct entries that
resolve to the same stock — and between two inventory entries folding to
the same key the later one in snapshot order wins the lookup. -/
theorem claimC5 :
    (∀ (inv : List InventoryItem) (s₁ s₂ : String),
      lowerCase s₁ = lowerCase s₂ → stockOf inv s₁ = stockOf inv s₂) ∧
    (∀ (xs : List InventoryItem) (item : InventoryItem) (k : String),
      lowerCase item.name = k →
      inventoryLookup (xs ++ [item]) k = some item.quantity) ∧
    (∀ (recipes : List Recipe) (inv : List InventoryItem) (m : Needs),
      computeShoppingNeeds recipes inv = some m →
      ∀ s₁ s₂ : String,
        lowerCase s₁ = lowerCase s₂ → stockOf inv s₁ = 0 →
        s₁ ∈ allIngredients recipes → s₂ ∈ allIngredients recipes →
        s₁ ∈ needKeys m ∧ s₂ ∈ needKeys m ∧
        needGet m s₁ = occCount recipes s₁ ∧
        needGet m s₂ = occCount recipes s₂) := by
  refine ⟨fun inv s₁ s₂ h => ?_, fun xs item k h => ?_, ?_⟩
  · unfold stockOf
    rw [h]
  · unfold inventoryLookup
    rw [List.map_append]
    simp [h]
  · intro recipes inv m h s₁ s₂ hfold h0 hm₁ hm₂
    have h0' : stockOf inv s₂ = 0 := by
      unfold stockOf at *
      rw [← hfold]
      exact h0
    refine ⟨(computeShoppingNeeds_keys h s₁).mpr ⟨h0, hm₁⟩,
      (computeShoppingNeeds_keys h s₂).mpr ⟨h0', hm₂⟩, ?_, ?_⟩
    · rw [computeShoppingNeeds_needGet h s₁, if_pos h0]
    · rw [computeShoppingNeeds_needGet h s₂, if_pos h0']

theorem claimC5_witness :
    lowerCase "egg" = "egg" ∧
    inventoryLookup ([⟨"Egg", 3⟩] ++ [⟨"egg", 7⟩]) "egg" = some 7 ∧
    computeShoppingNeeds [⟨"A", "", some ["Egg"]⟩, ⟨"B", "", some ["egg"]⟩] []
        = some [("Egg", 1), ("egg", 1)] ∧
    lowerCase "Egg" = lowerCase "egg" ∧
    stockOf [] "Egg" = 0 ∧
    "Egg" ∈ allIngredients [⟨"A", "", some ["Egg"]⟩, ⟨"B", "", some ["egg"]⟩] ∧
    "egg" ∈ allIngredients [⟨"A", "", some ["Egg"]⟩, ⟨"B", "", some ["egg"]⟩] ∧
    ("Egg" ∈ needKeys [("Egg", 1), ("egg", 1)] ∧
      "egg" ∈ needKeys [("Egg", 1), ("egg", 1)] ∧
      needGet [("Egg", 1), ("egg", 1)] "Egg"
        = occCount [⟨"A", "", some ["Egg"]⟩, ⟨"B", "", some ["egg"]⟩] "Egg" ∧
      needGet [("Egg", 1), ("egg", 1)] "egg"
        = occCount [⟨"A", "", some ["Egg"]⟩, ⟨"B", "", some ["egg"]⟩] "egg") :=
  ⟨by decide,
    claimC5.2.1 [⟨"Egg", 3⟩] ⟨"egg", 7⟩ "egg" (by decide),
    by decide, by decide, by decide, by decide, by decide,
    claimC5.2.2 [⟨"A", "", some ["Egg"]⟩, ⟨"B", "", some ["egg"]⟩] []
      [("Egg", 1), ("egg", 1)] (by decide) "Egg" "egg" (by decide) (by decide)
      (by decide) (by decide)⟩

/-- C6: the aggregation is additive over concatenation of recipe
sequences, component-wise. -/
theorem claimC6 :
    ∀ (A B : List Recipe) (table : NutrientTable),
      computeTotals (A ++ B) table
        = totAdd (computeTotals A table) (computeTotals B table) := by
  intro A B table
  rw [computeTotals_eq_specTotals, computeTotals_eq_specTotals,
    computeTotals_eq_specTotals]
  unfold specTotals
  rw [allIngredients_append, List.map_append, sumTotals_append]

/-- C7: on the empty recipe sequence the derivation returns the empty
mapping and the aggregation the all-zero triple, whatever the inventory
or table. -/
theorem claimC7 :
    (∀ inv : List InventoryItem, computeShoppingNeeds [] inv = some []) ∧
    (∀ table : NutrientTable, computeTotals [] table = ⟨0, 0, 0⟩) :=
  ⟨fun _ => rfl, fun _ => rfl⟩

/-- C8: both derivations are deterministic — equal inputs give equal
results; in this embedding each is a pure function of exactly the
arguments passed in, so no other state is read or written. -/
theorem claimC8 :
    ∀ (r₁ r₂ : List Recipe) (i₁ i₂ : List InventoryItem)
      (t₁ t₂ : NutrientTable),
      r₁ = r₂ → i₁ = i₂ → t₁ = t₂ →
      computeShoppingNeeds r₁ i₁ = computeShoppingNeeds r₂ i₂ ∧
      computeTotals r₁ t₁ = computeTotals r₂ t₂ := by
  intro r₁ r₂ i₁ i₂ t₁ t₂ hr hi ht
  subst hr
  subst hi
  subst ht
  exact ⟨rfl, rfl⟩

theorem claimC8_witness :
    ([⟨"Cake", "", some ["Egg"]⟩] : List Recipe) = [⟨"Cake", "", some ["Egg"]⟩] ∧
    computeShoppingNeeds [⟨"Cake", "", some ["Egg"]⟩] [⟨"egg", 1⟩]
        = computeShoppingNeeds [⟨"Cake", "", some ["Egg"]⟩] [⟨"egg", 1⟩] ∧
    computeTotals [⟨"Cake", "", some ["Egg"]⟩] NUTRIENT_DATA
        = computeTotals [⟨"Cake", "", some ["Egg"]⟩] NUTRIENT_DATA :=
  ⟨rfl,
    claimC8 [⟨"Cake", "", some ["Egg"]⟩] [⟨"Cake", "", some ["Egg"]⟩]
      [⟨"egg", 1⟩] [⟨"egg", 1⟩] NUTRIENT_DATA NUTRIENT_DATA rfl rfl rfl⟩

/-- C9: within a single recipe each duplicate occurrence of the same
spelling contributes 1, so a spelling listed k times with zero stock gets
need count k. -/
theorem claimC9 :
    ∀ (title content : String) (l : List String) (inv : List InventoryItem)
      (s : String),
      stockOf inv s = 0 →
      computeShoppingNeeds [⟨title, content, some l⟩] inv
          = some (addRecipeNeeds inv [] l) ∧
      needGet (addRecipeNeeds inv [] l) s = l.count s := by
  intro title content l inv s h
  refine ⟨rfl, ?_⟩
  rw [addRecipeNeeds_needGet, if_pos h]
  simp [needGet]

theorem claimC9_witness :
    stockOf [] "egg" = 0 ∧
    (computeShoppingNeeds [⟨"Flan", "", some ["egg", "egg", "egg"]⟩] []
        = some (addRecipeNeeds [] [] ["egg", "egg", "egg"]) ∧
      needGet (addRecipeNeeds [] [] ["egg", "egg", "egg"]) "egg"
        = ["egg", "egg", "egg"].count "egg") :=
  ⟨by decide,
    claimC9 "Flan" "" ["egg", "egg", "egg"] [] "egg" (by decide)⟩

/-- C10: a nutrient-table key containing an upper-case letter is never the
case-folded form of any ingredient, so deleting that entry never changes
the totals, for every recipe sequence. -/
theorem claimC10 :
    ∀ (table : NutrientTable) (k : String),
      containsUpper k = true →
      (∀ s : String, lowerCase s ≠ k) ∧
      (∀ recipes : List Recipe,
        computeTotals recipes (fun s => if s = k then none else table s)
          = computeTotals recipes table) := by
  intro table k hk
  refine ⟨fun s => lowerCase_ne_of_containsUpper k s hk, fun recipes => ?_⟩
  rw [computeTotals_eq_specTotals, computeTotals_eq_specTotals]
  unfold specTotals
  congr 1
  apply List.map_congr_left
  intro i _
  have h := lowerCase_ne_of_containsUpper k i hk
  simp [factOf, h]

theorem claimC10_witness :
    containsUpper "Egg" = true ∧
    lowerCase "EGG" ≠ "Egg" ∧
    computeTotals [⟨"Cake", "", some ["egg"]⟩]
        (fun s => if s = "Egg" then none else NUTRIENT_DATA s)
      = computeTotals [⟨"Cake", "", some ["egg"]⟩] NUTRIENT_DATA :=
  ⟨by decide,
    (claimC10 NUTRIENT_DATA "Egg" (by decide)).1 "EGG",
    (claimC10 NUTRIENT_DATA "Egg" (by decide)).2 [⟨"Cake", "", some ["egg"]⟩]⟩
